import Mathlib

/-!
Verification development for the RanchoFinanzas offline-first ledger.

The data model and operations below are a shallow embedding of the
repository sources:
  * `db.js` (local IndexedDB store): `addTransaction`,
    `getTransactionsByDateRange`, `getPendingTransactions`, `markAsSynced`,
    `getSummary`, `getTotalBalance`;
  * `sync.js` (sync engine): `pushPendingTransactions`,
    `pullRemoteTransactions`, `syncPendingTransactions`.

Timestamps and calendar dates are modelled as natural numbers counting
milliseconds on a single time axis (the JS code compares `Date` values,
which is numeric millisecond comparison). Amounts are integers. Strings
stay strings; a missing JSON field is `Option.none`, and the JS falsy

check on a string treats the empty string like a missing field.
-/

namespace RanchoFinanzas

/-- A locally stored transaction row, one Dexie record of the
`transactions` table. `localId` is the auto-incremented surrogate key,
`id` the globally unique id assigned at creation, `comprobante` the
optional inline photo, `syncStatus` either "pending" or "synced". -/
structure Txn where
  localId : Nat
  id : String
  tipo : String
  monto : Int
  fecha : Nat
  descripcion : String
  categoria : String
  metodoPago : String
  usuario : String
  createdAt : Nat
  comprobante : Option String
  syncStatus : String
deriving Repr, DecidableEq

/-- The local durable store: the `transactions` table (in insertion
order), the next Dexie auto-increment key, and the last-sync watermark
from the `settings` table. -/
structure Store where
  txns : List Txn
  nextLocalId : Nat
  lastSync : Option Nat
deriving Repr, DecidableEq

/-- The argument of `addTransaction`, as built by the form view
(form.js): all user-entered fields, before the store stamps
`syncStatus` and `createdAt`. -/
structure NewTxn where
  id : String
  tipo : String
  monto : Int
  fecha : Nat
  descripcion : String
  categoria : String
  metodoPago : String
  usuario : String
  comprobante : Option String
deriving Repr, DecidableEq

/-- A raw remote record as delivered by `GET /api/transactions`: JSON
fields that the pull loop defaults are optional (`none` = absent;
an empty string is likewise falsy in the JS defaults). -/
structure RemoteTxn where
  id : Option String
  tipo : String
  monto : Int
  fecha : Nat
  descripcion : Option String
  categoria : Option String
  metodoPago : Option String
  usuario : Option String
  createdAt : Option Nat
deriving Repr, DecidableEq

/-- The normalized record the pull loop hands to
`upsertRemoteTransaction` (sync.js lines 94-104). -/
structure PulledRec where
  id : String
  tipo : String
  monto : Int
  fecha : Nat
  descripcion : String
  categoria : String
  metodoPago : String
  usuario : String
  createdAt : Nat
deriving Repr, DecidableEq

/-- One element of the `transactions` array of the `POST /api/sync`
request body (sync.js lines 44-54). The type has exactly the nine wire
fields; `localId`, `syncStatus` and `comprobante` do not appear. -/
structure WireTxn where
  id : String
  tipo : String
  monto : Int
  fecha : Nat
  descripcion : String
  categoria : String
  metodoPago : String
  usuario : String
  createdAt : Nat
deriving Repr, DecidableEq

/-- Outcome of the push `fetch`: `ok` (`response.ok`), a non-success
HTTP status, or a thrown network error. -/
inductive PushOutcome where
  | ok
  | httpError
  | netError
deriving Repr, DecidableEq

/-- Outcome of the pull `fetch`: the decoded `transactions` array on
success, or failure (non-success status or thrown error behave the
same way in the code). -/
inductive PullOutcome where
  | ok (transactions : List RemoteTxn)
  | fail
deriving Repr, DecidableEq

/-- The ambient environment of one sync call: `navigator.onLine`, the
configured `api_url` (empty string = unconfigured), the responses the
network would give, and the current time (`new Date()`). -/
structure Env where
  online : Bool
  apiUrl : String
  push : PushOutcome
  pull : PullOutcome
  now : Nat
deriving Repr, DecidableEq

/-- Result record of `pushPendingTransactions`: `synced` = the `sent`
count of the spec, `pending` = the `stillPending` count. -/
structure PushResult where
  synced : Nat
  pending : Nat
deriving Repr, DecidableEq

/-- Result record of `pullRemoteTransactions`. -/
structure PullResult where
  pulled : Nat
deriving Repr, DecidableEq

/-- Result record of the combined `syncPendingTransactions`. -/
structure SyncResult where
  synced : Nat
  pulled : Nat
  pending : Nat
deriving Repr, DecidableEq

/-- Result record of `getSummary`. -/
structure Summary where
  totalIngresos : Int
  totalGastos : Int
  balance : Int
  transacciones : Nat
deriving Repr, DecidableEq

/-- Result record of `getTotalBalance`. -/
structure BalanceSummary where
  ingresos : Int
  gastos : Int
  balance : Int
deriving Repr, DecidableEq

/-- A store with no transactions; Dexie auto-increment keys start at 1. -/
def emptyStore : Store := { txns := [], nextLocalId := 1, lastSync := none }

/-- `addTransaction` (db.js): persists the record with
`syncStatus := "pending"` and `createdAt := now`; Dexie assigns the next
auto-increment `localId`. -/
def addTransaction (s : Store) (now : Nat) (t : NewTxn) : Store :=
  { s with
    txns := s.txns ++ [⟨s.nextLocalId, t.id, t.tipo, t.monto, t.fecha,
      t.descripcion, t.categoria, t.metodoPago, t.usuario, now,
      t.comprobante, "pending"⟩],
    nextLocalId := s.nextLocalId + 1 }

/-- Number of milliseconds in a day. -/
def msPerDay : Nat := 86400000

/-- `start.setHours(0, 0, 0, 0)`: the beginning of the calendar day of a
timestamp. -/
def startOfDay (t : Nat) : Nat := t - t % msPerDay

/-- `end.setHours(23, 59, 59, 999)`: the last millisecond of the
calendar day of a timestamp. -/
def endOfDay (t : Nat) : Nat := startOfDay t + (msPerDay - 1)

/-- `getTransactionsByDateRange` (db.js): keeps the transactions whose
`fecha` lies between the start of the day of `startDate` and the end of
the day of `endDate`, both inclusive. -/
def getTransactionsByDateRange (s : Store) (startDate endDate : Nat) : List Txn :=
  s.txns.filter (fun t =>
    decide (startOfDay startDate ≤ t.fecha ∧ t.fecha ≤ endOfDay endDate))

/-- `getPendingTransactions` (db.js): the rows whose `syncStatus` is
"pending". -/
def getPendingTransactions (s : Store) : List Txn :=
  s.txns.filter (fun t => t.syncStatus == "pending")

/-- `markAsSynced` (db.js): sets `syncStatus := "synced"` on every row
whose `localId` is in the given key set. -/
def markAsSynced (s : Store) (localIds : List Nat) : Store :=
  { s with txns := s.txns.map (fun t =>
      if t.localId ∈ localIds then { t with syncStatus := "synced" } else t) }

/-- Sum of the `monto` fields of a list of transactions. -/
def sumMontos (l : List Txn) : Int := (l.map Txn.monto).sum

/-- The shared accumulation step of `getSummary` and `getTotalBalance`:
a record with `tipo = "ingreso"` adds its amount to the first component,
any other record adds its amount to the second. -/
def summaryStep (acc : Int × Int) (t : Txn) : Int × Int :=
  if t.tipo = "ingreso" then (acc.1 + t.monto, acc.2) else (acc.1, acc.2 + t.monto)

/-- `getSummary` (db.js): aggregates over `getTransactionsByDateRange`. -/
def getSummary (s : Store) (startDate endDate : Nat) : Summary :=
  let txs := getTransactionsByDateRange s startDate endDate
  let p := txs.foldl summaryStep ((0 : Int), (0 : Int))
  { totalIngresos := p.1, totalGastos := p.2, balance := p.1 - p.2,
    transacciones := txs.length }

/-- `getTotalBalance` (db.js): the same aggregation over the whole
table. -/
def getTotalBalance (s : Store) : BalanceSummary :=
  let p := s.txns.foldl summaryStep ((0 : Int), (0 : Int))
  { ingresos := p.1, gastos := p.2, balance := p.1 - p.2 }

/-- `setLastSyncTimestamp` (db.js side of the sync engine): records the
watermark in the settings table. -/
def setLastSyncTimestamp (s : Store) (ts : Nat) : Store :=
  { s with lastSync := some ts }

/-- The record stored when a pulled remote record is inserted locally:
all wire fields from the normalized record, `syncStatus := "synced"`,
no local photo. -/
def mkSynced (key : Nat) (p : PulledRec) : Txn :=
  ⟨key, p.id, p.tipo, p.monto, p.fecha, p.descripcion, p.categoria,
   p.metodoPago, p.usuario, p.createdAt, none, "synced"⟩

/-- Overwriting an existing local row with a pulled remote record: the
wire fields are replaced, `syncStatus` stays "synced", while `localId`
and the local photo are kept (a keyed update does not touch them). -/
def applyFields (t : Txn) (p : PulledRec) : Txn :=
  ⟨t.localId, p.id, p.tipo, p.monto, p.fecha, p.descripcion, p.categoria,
   p.metodoPago, p.usuario, p.createdAt, t.comprobante, "synced"⟩

/-- Replaces the first row whose `id` matches the pulled record by the
overwritten row, leaving everything else in place. -/
def overwriteFirst (p : PulledRec) : List Txn → List Txn
  | [] => []
  | t :: ts => if t.id = p.id then applyFields t p :: ts else t :: overwriteFirst p ts

/-- Modelled from the spec: `upsertRemoteTransaction` is imported by
sync.js from db.js but its definition is not among the sources; spec
section 4.1 `upsertRemote` specifies it. If no local record has this
`globalId`, insert it with `syncState = synced`; if one exists and is
already synced, overwrite its fields and keep it synced; if one exists
with `syncState = pending`, discard the remote copy. Returns whether a
new record was inserted. -/
def upsertRemoteTransaction (s : Store) (p : PulledRec) : Store × Bool :=
  match s.txns.find? (fun t => t.id == p.id) with
  | none =>
      ({ s with
          txns := s.txns ++ [mkSynced s.nextLocalId p],
          nextLocalId := s.nextLocalId + 1 }, true)
  | some m =>
      if m.syncStatus = "synced" then
        ({ s with txns := overwriteFirst p s.txns }, false)
      else (s, false)

/-- The JS string default `a || d`: `undefined` and the empty string
both fall back to the default. -/
def jsOr (o : Option String) (d : String) : String :=
  match o with
  | none => d
  | some v => if v = "" then d else v

/-- The JS default for the `createdAt` timestamp: an absent value falls
back to the current time. -/
def orNow (o : Option Nat) (now : Nat) : Nat := o.getD now

/-- The normalization the pull loop applies before upserting (sync.js
lines 92-104): records with a falsy `id` are skipped (`none`), `monto`
runs through `Number` (the identity on the numeric wire values modelled
here), `descripcion`, `categoria`, `metodoPago` and `usuario` get their
JS defaults, and a missing `createdAt` becomes the current time. -/
def normalizeRemote (now : Nat) (r : RemoteTxn) : Option PulledRec :=
  match r.id with
  | none => none
  | some i =>
      if i = "" then none
      else some ⟨i, r.tipo, r.monto, r.fecha, jsOr r.descripcion "",
        jsOr r.categoria "general", jsOr r.metodoPago "efectivo",
        jsOr r.usuario "", orNow r.createdAt now⟩

/-- One iteration of the pull loop: skip falsy ids, upsert the
normalized record, count genuinely new insertions. -/
def pullStep (now : Nat) (acc : Store × Nat) (r : RemoteTxn) : Store × Nat :=
  match normalizeRemote now r with
  | none => acc
  | some p =>
      let res := upsertRemoteTransaction acc.fst p
      (res.fst, acc.snd + (if res.snd then 1 else 0))

/-- `pullRemoteTransactions` (sync.js): no-op when offline or
unconfigured or on a failed fetch; otherwise upserts every delivered
record and then writes the watermark. -/
def pullRemoteTransactions (env : Env) (s : Store) : Store × PullResult :=
  if env.online = false ∨ env.apiUrl = "" then (s, { pulled := 0 })
  else
    match env.pull with
    | .fail => (s, { pulled := 0 })
    | .ok remotes =>
        let res := remotes.foldl (pullStep env.now) (s, 0)
        (setLastSyncTimestamp res.fst env.now, { pulled := res.snd })

/-- The projection of a local row onto the wire fields exactly as the
push body builds it (sync.js lines 44-54); note the JS default
`categoria || "general"`. -/
def wireOf (t : Txn) : WireTxn :=
  { id := t.id, tipo := t.tipo, monto := t.monto, fecha := t.fecha,
    descripcion := t.descripcion,
    categoria := if t.categoria = "" then "general" else t.categoria,
    metodoPago := t.metodoPago, usuario := t.usuario, createdAt := t.createdAt }

/-- The verbatim projection of a local row onto the nine wire fields,
following the words of the spec ("Serialize the pending set (excluding
local-only fields)"), with no defaulting. Kept separate from `wireOf`
to compare the code against the spec. -/
def specProjection (t : Txn) : WireTxn :=
  { id := t.id, tipo := t.tipo, monto := t.monto, fecha := t.fecha,
    descripcion := t.descripcion, categoria := t.categoria,
    metodoPago := t.metodoPago, usuario := t.usuario, createdAt := t.createdAt }

/-- The `transactions` array of the `POST /api/sync` request body, when
`pushPendingTransactions` reaches the fetch (sync.js lines 28-56):
`none` when no request is made. -/
def pushRequestBody (env : Env) (s : Store) : Option (List WireTxn) :=
  if env.online = false ∨ env.apiUrl = "" then none
  else
    let pending := getPendingTransactions s
    if pending.isEmpty then none
    else some (pending.map wireOf)

/-- `pushPendingTransactions` (sync.js): no-op when offline or
unconfigured or with nothing pending; on `response.ok` marks the whole
batch synced; on a non-success status or a thrown error leaves the
store untouched and reports the pending count. -/
def pushPendingTransactions (env : Env) (s : Store) : Store × PushResult :=
  if env.online = false ∨ env.apiUrl = "" then (s, { synced := 0, pending := 0 })
  else
    let pending := getPendingTransactions s
    if pending.isEmpty then (s, { synced := 0, pending := 0 })
    else
      match env.push with
      | .ok =>
          let localIds := pending.map Txn.localId
          (markAsSynced s localIds, { synced := localIds.length, pending := 0 })
      | .httpError => (s, { synced := 0, pending := pending.length })
      | .netError => (s, { synced := 0, pending := (getPendingTransactions s).length })

/-- `syncPendingTransactions` (sync.js): push first, then pull. -/
def syncPendingTransactions (env : Env) (s : Store) : Store × SyncResult :=
  let pushRes := pushPendingTransactions env s
  let pullRes := pullRemoteTransactions env pushRes.fst
  (pullRes.fst, { synced := pushRes.snd.synced, pulled := pullRes.snd.pulled,
                  pending := pushRes.snd.pending })

/-- The remote record list carried by a pull outcome (empty on
failure); used to state hypotheses about the remote snapshot. -/
def pullRecords (env : Env) : List RemoteTxn :=
  match env.pull with
  | .ok remotes => remotes
  | .fail => []

/-- The store evolution of the pull loop, with the counter projected
away. -/
def applyRemotes (ps : List PulledRec) (s : Store) : Store :=
  ps.foldl (fun st p => (upsertRemoteTransaction st p).fst) s

/-- How many of the upserts insert a genuinely new record. -/
def countNew : List PulledRec → Store → Nat
  | [], _ => 0
  | p :: ps, s =>
      (if (upsertRemoteTransaction s p).snd then 1 else 0) +
        countNew ps (upsertRemoteTransaction s p).fst

/-- A pulled record is absorbed in a transaction list when the first
row carrying its id exists and, when that row is synced, an overwrite
would rewrite it to itself; upserting an absorbed record is a no-op. -/
def AbsorbedL (p : PulledRec) (l : List Txn) : Prop :=
  ∃ m, l.find? (fun t => t.id == p.id) = some m ∧
    (m.syncStatus = "synced" → applyFields m p = m)

theorem applyFields_idem (t : Txn) (p : PulledRec) :
    applyFields (applyFields t p) p = applyFields t p := rfl

theorem applyFields_mkSynced (k : Nat) (p : PulledRec) :
    applyFields (mkSynced k p) p = mkSynced k p := rfl

theorem applyFields_id (t : Txn) (p : PulledRec) :
    (applyFields t p).id = p.id := rfl

theorem applyFields_status (t : Txn) (p : PulledRec) :
    (applyFields t p).syncStatus = "synced" := rfl

theorem find_id_cons_pos {a : Txn} {i : String} (l : List Txn) (h : a.id = i) :
    (a :: l).find? (fun t => t.id == i) = some a :=
  List.find?_cons_of_pos l (by simpa using h)

theorem find_id_cons_neg {a : Txn} {i : String} (l : List Txn) (h : ¬ a.id = i) :
    (a :: l).find? (fun t => t.id == i) = l.find? (fun t => t.id == i) :=
  List.find?_cons_of_neg l (by simpa using h)

theorem find_id_append_eq_some {l l2 : List Txn} {i : String} {m : Txn}
    (h : l.find? (fun t => t.id == i) = some m) :
    (l ++ l2).find? (fun t => t.id == i) = some m := by
  induction l with
  | nil => simp at h
  | cons a l ih =>
    rw [List.cons_append]
    by_cases hc : a.id = i
    · rw [find_id_cons_pos l hc] at h
      rw [find_id_cons_pos (l ++ l2) hc]
      exact h
    · rw [find_id_cons_neg l hc] at h
      rw [find_id_cons_neg (l ++ l2) hc]
      exact ih h

theorem overwriteFirst_noop {l : List Txn} {p : PulledRec} {m : Txn}
    (h : l.find? (fun t => t.id == p.id) = some m)
    (hm : applyFields m p = m) : overwriteFirst p l = l := by
  induction l with
  | nil => simp at h
  | cons a l ih =>
    by_cases hc : a.id = p.id
    · rw [find_id_cons_pos l hc] at h
      have ha : a = m := by simpa using h
      simp only [overwriteFirst, if_pos hc]
      rw [ha, hm]
    · rw [find_id_cons_neg l hc] at h
      simp only [overwriteFirst, if_neg hc]
      rw [ih h]

theorem overwriteFirst_find_self {l : List Txn} {p : PulledRec} {m : Txn}
    (h : l.find? (fun t => t.id == p.id) = some m) :
    (overwriteFirst p l).find? (fun t => t.id == p.id) = some (applyFields m p) := by
  induction l with
  | nil => simp at h
  | cons a l ih =>
    by_cases hc : a.id = p.id
    · rw [find_id_cons_pos l hc] at h
      have ha : a = m := by simpa using h
      simp only [overwriteFirst, if_pos hc]
      rw [find_id_cons_pos l (applyFields_id a p)]
      rw [ha]
    · rw [find_id_cons_neg l hc] at h
      simp only [overwriteFirst, if_neg hc]
      rw [find_id_cons_neg (overwriteFirst p l) hc]
      exact ih h

theorem overwriteFirst_find_other {l : List Txn} {p q : PulledRec}
    (hne : q.id ≠ p.id) :
    (overwriteFirst q l).find? (fun t => t.id == p.id) =
      l.find? (fun t => t.id == p.id) := by
  induction l with
  | nil => rfl
  | cons a l ih =>
    by_cases hc : a.id = q.id
    · simp only [overwriteFirst, if_pos hc]
      have hap : ¬ (applyFields a q).id = p.id := by
        rw [applyFields_id]; exact hne
      have hap2 : ¬ a.id = p.id := by rw [hc]; exact hne
      rw [find_id_cons_neg l hap, find_id_cons_neg l hap2]
    · simp only [overwriteFirst, if_neg hc]
      by_cases hd : a.id = p.id
      · rw [find_id_cons_pos (overwriteFirst q l) hd, find_id_cons_pos l hd]
      · rw [find_id_cons_neg (overwriteFirst q l) hd, find_id_cons_neg l hd]
        exact ih

theorem overwriteFirst_map_id (p : PulledRec) (l : List Txn) :
    (overwriteFirst p l).map Txn.id = l.map Txn.id := by
  induction l with
  | nil => rfl
  | cons a l ih =>
    by_cases hc : a.id = p.id
    · simp only [overwriteFirst, if_pos hc]
      simp [applyFields_id, hc]
    · simp only [overwriteFirst, if_neg hc]
      simp [ih]

theorem overwriteFirst_filter_pending {l : List Txn} {p : PulledRec} {m : Txn}
    (h : l.find? (fun t => t.id == p.id) = some m)
    (hm : m.syncStatus = "synced") :
    (overwriteFirst p l).filter (fun t => t.syncStatus == "pending") =
      l.filter (fun t => t.syncStatus == "pending") := by
  induction l with
  | nil => rfl
  | cons a l ih =>
    by_cases hc : a.id = p.id
    · rw [find_id_cons_pos l hc] at h
      have ha : a = m := by simpa using h
      simp only [overwriteFirst, if_pos hc]
      rw [List.filter_cons, List.filter_cons]
      have h1 : ((applyFields a p).syncStatus == "pending") = false := by
        simp [applyFields_status]
      have h2 : (a.syncStatus == "pending") = false := by
        simp [ha, hm]
      simp [h1, h2]
    · rw [find_id_cons_neg l hc] at h
      simp only [overwriteFirst, if_neg hc]
      rw [List.filter_cons, List.filter_cons, ih h]

theorem overwriteFirst_mem_pending {l : List Txn} {p : PulledRec} {m t : Txn}
    (h : l.find? (fun t => t.id == p.id) = some m)
    (hm : m.syncStatus = "synced")
    (ht : t ∈ l) (hp : t.syncStatus = "pending") :
    t ∈ overwriteFirst p l := by
  induction l with
  | nil => simp at ht
  | cons a l ih =>
    by_cases hc : a.id = p.id
    · rw [find_id_cons_pos l hc] at h
      have ha : a = m := by simpa using h
      simp only [overwriteFirst, if_pos hc]
      rcases List.mem_cons.mp ht with rfl | hmem
      · rw [ha] at hp
        rw [hm] at hp
        exact absurd hp (by decide)
      · exact List.mem_cons_of_mem _ hmem
    · rw [find_id_cons_neg l hc] at h
      simp only [overwriteFirst, if_neg hc]
      rcases List.mem_cons.mp ht with rfl | hmem
      · exact List.mem_cons_self _ _
      · exact List.mem_cons_of_mem _ (ih h hmem)

theorem overwriteFirst_mem_src {l : List Txn} {p : PulledRec} {t : Txn}
    (ht : t ∈ overwriteFirst p l) :
    t ∈ l ∨ ∃ u, u ∈ l ∧ t = applyFields u p := by
  induction l with
  | nil => simp [overwriteFirst] at ht
  | cons a l ih =>
    by_cases hc : a.id = p.id
    · simp only [overwriteFirst, if_pos hc] at ht
      rcases List.mem_cons.mp ht with rfl | hmem
      · exact Or.inr ⟨a, List.mem_cons_self _ _, rfl⟩
      · exact Or.inl (List.mem_cons_of_mem _ hmem)
    · simp only [overwriteFirst, if_neg hc] at ht
      rcases List.mem_cons.mp ht with rfl | hmem
      · exact Or.inl (List.mem_cons_self _ _)
      · rcases ih hmem with h1 | ⟨u, hu, rfl⟩
        · exact Or.inl (List.mem_cons_of_mem _ h1)
        · exact Or.inr ⟨u, List.mem_cons_of_mem _ hu, rfl⟩

theorem mkSynced_id (k : Nat) (p : PulledRec) : (mkSynced k p).id = p.id := rfl

theorem mkSynced_status (k : Nat) (p : PulledRec) :
    (mkSynced k p).syncStatus = "synced" := rfl

theorem find_id_append_of_none {l l2 : List Txn} {i : String}
    (h : l.find? (fun t => t.id == i) = none) :
    (l ++ l2).find? (fun t => t.id == i) = l2.find? (fun t => t.id == i) := by
  induction l with
  | nil => simp
  | cons a l ih =>
    by_cases hc : a.id = i
    · rw [find_id_cons_pos l hc] at h
      exact absurd h (by simp)
    · rw [find_id_cons_neg l hc] at h
      rw [List.cons_append, find_id_cons_neg (l ++ l2) hc]
      exact ih h

theorem upsert_pending (s : Store) (p : PulledRec) :
    getPendingTransactions (upsertRemoteTransaction s p).fst =
      getPendingTransactions s := by
  unfold getPendingTransactions upsertRemoteTransaction
  cases hf : s.txns.find? (fun t => t.id == p.id) with
  | none =>
      simp only []
      rw [List.filter_append]
      have hmk : ((mkSynced s.nextLocalId p).syncStatus == "pending") = false := by
        simp [mkSynced_status]
      simp [hmk]
  | some m =>
      by_cases hs : m.syncStatus = "synced"
      · simp only [if_pos hs]
        exact overwriteFirst_filter_pending hf hs
      · simp only [if_neg hs]

theorem upsert_absorbed_self (s : Store) (p : PulledRec) :
    AbsorbedL p ((upsertRemoteTransaction s p).fst).txns := by
  cases hf : s.txns.find? (fun t => t.id == p.id) with
  | none =>
      refine ⟨mkSynced s.nextLocalId p, ?_, fun _ => applyFields_mkSynced _ _⟩
      simp only [upsertRemoteTransaction, hf]
      rw [find_id_append_of_none hf]
      exact find_id_cons_pos [] (mkSynced_id _ _)
  | some m =>
      by_cases hs : m.syncStatus = "synced"
      · refine ⟨applyFields m p, ?_, fun _ => applyFields_idem _ _⟩
        simp only [upsertRemoteTransaction, hf, if_pos hs]
        exact overwriteFirst_find_self hf
      · refine ⟨m, ?_, fun hs2 => absurd hs2 hs⟩
        simp only [upsertRemoteTransaction, hf, if_neg hs]

theorem upsert_absorbed_other {s : Store} {p q : PulledRec} (hne : q.id ≠ p.id)
    (h : AbsorbedL p s.txns) :
    AbsorbedL p ((upsertRemoteTransaction s q).fst).txns := by
  obtain ⟨m, hfind, hcond⟩ := h
  cases hf : s.txns.find? (fun t => t.id == q.id) with
  | none =>
      refine ⟨m, ?_, hcond⟩
      simp only [upsertRemoteTransaction, hf]
      exact find_id_append_eq_some hfind
  | some m2 =>
      by_cases hs : m2.syncStatus = "synced"
      · refine ⟨m, ?_, hcond⟩
        simp only [upsertRemoteTransaction, hf, if_pos hs]
        rw [overwriteFirst_find_other hne]
        exact hfind
      · refine ⟨m, ?_, hcond⟩
        simp only [upsertRemoteTransaction, hf, if_neg hs]
        exact hfind

theorem upsert_of_absorbed {s : Store} {p : PulledRec} (h : AbsorbedL p s.txns) :
    upsertRemoteTransaction s p = (s, false) := by
  obtain ⟨m, hfind, hcond⟩ := h
  simp only [upsertRemoteTransaction, hfind]
  by_cases hs : m.syncStatus = "synced"
  · rw [if_pos hs, overwriteFirst_noop hfind (hcond hs)]
  · rw [if_neg hs]

theorem upsert_mem_pending {s : Store} {p : PulledRec} {t : Txn}
    (ht : t ∈ s.txns) (hp : t.syncStatus = "pending") :
    t ∈ ((upsertRemoteTransaction s p).fst).txns := by
  cases hf : s.txns.find? (fun t => t.id == p.id) with
  | none =>
      simp only [upsertRemoteTransaction, hf]
      exact List.mem_append_left _ ht
  | some m =>
      by_cases hs : m.syncStatus = "synced"
      · simp only [upsertRemoteTransaction, hf, if_pos hs]
        exact overwriteFirst_mem_pending hf hs ht hp
      · simp only [upsertRemoteTransaction, hf, if_neg hs]
        exact ht

theorem upsert_nodup {s : Store} {p : PulledRec}
    (h : (s.txns.map Txn.id).Nodup) :
    (((upsertRemoteTransaction s p).fst).txns.map Txn.id).Nodup := by
  cases hf : s.txns.find? (fun t => t.id == p.id) with
  | none =>
      simp only [upsertRemoteTransaction, hf]
      rw [List.map_append]
      rw [List.nodup_append]
      refine ⟨h, by simp, ?_⟩
      intro x hx hx2
      obtain ⟨t, ht, rfl⟩ := List.mem_map.mp hx
      have : t.id = p.id := by
        simpa [mkSynced_id] using hx2
      have hnot := List.find?_eq_none.mp hf t ht
      simp [this] at hnot
  | some m =>
      by_cases hs : m.syncStatus = "synced"
      · simp only [upsertRemoteTransaction, hf, if_pos hs]
        rw [overwriteFirst_map_id]
        exact h
      · simp only [upsertRemoteTransaction, hf, if_neg hs]
        exact h

/-- A local row whose every wire field was written from the given
pulled record, with `syncStatus = "synced"`. -/
def FromPulled (p : PulledRec) (t : Txn) : Prop :=
  t.id = p.id ∧ t.tipo = p.tipo ∧ t.monto = p.monto ∧ t.fecha = p.fecha ∧
  t.descripcion = p.descripcion ∧ t.categoria = p.categoria ∧
  t.metodoPago = p.metodoPago ∧ t.usuario = p.usuario ∧
  t.createdAt = p.createdAt ∧ t.syncStatus = "synced"

theorem fromPulled_mkSynced (k : Nat) (p : PulledRec) :
    FromPulled p (mkSynced k p) :=
  ⟨rfl, rfl, rfl, rfl, rfl, rfl, rfl, rfl, rfl, rfl⟩

theorem fromPulled_applyFields (u : Txn) (p : PulledRec) :
    FromPulled p (applyFields u p) :=
  ⟨rfl, rfl, rfl, rfl, rfl, rfl, rfl, rfl, rfl, rfl⟩

theorem upsert_mem_src {s : Store} {p : PulledRec} {t : Txn}
    (ht : t ∈ ((upsertRemoteTransaction s p).fst).txns) :
    t ∈ s.txns ∨ FromPulled p t := by
  cases hf : s.txns.find? (fun t => t.id == p.id) with
  | none =>
      simp only [upsertRemoteTransaction, hf] at ht
      rcases List.mem_append.mp ht with hmem | hmem
      · exact Or.inl hmem
      · have : t = mkSynced s.nextLocalId p := by simpa using hmem
        exact Or.inr (this ▸ fromPulled_mkSynced _ _)
  | some m =>
      by_cases hs : m.syncStatus = "synced"
      · simp only [upsertRemoteTransaction, hf, if_pos hs] at ht
        rcases overwriteFirst_mem_src ht with hmem | ⟨u, _, rfl⟩
        · exact Or.inl hmem
        · exact Or.inr (fromPulled_applyFields _ _)
      · simp only [upsertRemoteTransaction, hf, if_neg hs] at ht
        exact Or.inl ht

theorem applyRemotes_cons (p : PulledRec) (ps : List PulledRec) (s : Store) :
    applyRemotes (p :: ps) s = applyRemotes ps (upsertRemoteTransaction s p).fst := rfl

theorem foldl_pullStep (now : Nat) (rs : List RemoteTxn) :
    ∀ (s : Store) (n : Nat),
      rs.foldl (pullStep now) (s, n) =
        (applyRemotes (rs.filterMap (normalizeRemote now)) s,
         n + countNew (rs.filterMap (normalizeRemote now)) s) := by
  induction rs with
  | nil =>
      intro s n
      simp [applyRemotes, countNew]
  | cons r rs ih =>
      intro s n
      rw [List.foldl_cons, List.filterMap_cons]
      cases hn : normalizeRemote now r with
      | none =>
          simp only [pullStep, hn]
          exact ih s n
      | some p =>
          simp only [pullStep, hn]
          rw [ih]
          rw [applyRemotes_cons]
          have hcount : countNew (p :: rs.filterMap (normalizeRemote now)) s =
              (if (upsertRemoteTransaction s p).snd then 1 else 0) +
                countNew (rs.filterMap (normalizeRemote now))
                  (upsertRemoteTransaction s p).fst := rfl
          rw [hcount]
          refine congrArg _ ?_
          omega

theorem applyRemotes_pending (ps : List PulledRec) :
    ∀ s : Store, getPendingTransactions (applyRemotes ps s) =
      getPendingTransactions s := by
  induction ps with
  | nil => intro s; rfl
  | cons p ps ih =>
      intro s
      rw [applyRemotes_cons, ih, upsert_pending]

theorem applyRemotes_absorbed_other {p : PulledRec} (ps : List PulledRec) :
    ∀ s : Store, (∀ q ∈ ps, q.id ≠ p.id) → AbsorbedL p s.txns →
      AbsorbedL p (applyRemotes ps s).txns := by
  induction ps with
  | nil => intro s _ h; exact h
  | cons q ps ih =>
      intro s hne h
      rw [applyRemotes_cons]
      refine ih _ (fun r hr => hne r (List.mem_cons_of_mem _ hr)) ?_
      exact upsert_absorbed_other (hne q (List.mem_cons_self _ _)) h

theorem applyRemotes_absorbed_all (ps : List PulledRec) :
    ∀ s : Store, (ps.map PulledRec.id).Nodup →
      ∀ p ∈ ps, AbsorbedL p (applyRemotes ps s).txns := by
  induction ps with
  | nil => intro s _ p hp; simp at hp
  | cons q ps ih =>
      intro s hnd p hp
      rw [List.map_cons, List.nodup_cons] at hnd
      obtain ⟨hq, hps⟩ := hnd
      rcases List.mem_cons.mp hp with rfl | hmem
      · rw [applyRemotes_cons]
        refine applyRemotes_absorbed_other ps _ ?_ (upsert_absorbed_self s p)
        intro r hr heq
        exact hq (heq ▸ List.mem_map_of_mem PulledRec.id hr)
      · rw [applyRemotes_cons]
        exact ih _ hps p hmem

theorem applyRemotes_of_absorbed (ps : List PulledRec) :
    ∀ s : Store, (∀ p ∈ ps, AbsorbedL p s.txns) →
      applyRemotes ps s = s ∧ countNew ps s = 0 := by
  induction ps with
  | nil => intro s _; exact ⟨rfl, rfl⟩
  | cons p ps ih =>
      intro s h
      have hu := upsert_of_absorbed (h p (List.mem_cons_self _ _))
      have hfst : (upsertRemoteTransaction s p).fst = s := by rw [hu]
      have hsnd : (upsertRemoteTransaction s p).snd = false := by rw [hu]
      have hrest := ih s (fun q hq => h q (List.mem_cons_of_mem _ hq))
      constructor
      · rw [applyRemotes_cons, hfst]
        exact hrest.1
      · show (if (upsertRemoteTransaction s p).snd then 1 else 0) +
            countNew ps (upsertRemoteTransaction s p).fst = 0
        rw [hfst, hsnd]
        simpa using hrest.2

theorem applyRemotes_mem_pending (ps : List PulledRec) :
    ∀ (s : Store) (t : Txn), t ∈ s.txns → t.syncStatus = "pending" →
      t ∈ (applyRemotes ps s).txns := by
  induction ps with
  | nil => intro s t ht _; exact ht
  | cons p ps ih =>
      intro s t ht hp
      rw [applyRemotes_cons]
      exact ih _ t (upsert_mem_pending ht hp) hp

theorem applyRemotes_nodup (ps : List PulledRec) :
    ∀ s : Store, (s.txns.map Txn.id).Nodup →
      ((applyRemotes ps s).txns.map Txn.id).Nodup := by
  induction ps with
  | nil => intro s h; exact h
  | cons p ps ih =>
      intro s h
      rw [applyRemotes_cons]
      exact ih _ (upsert_nodup h)

theorem applyRemotes_mem_src (ps : List PulledRec) :
    ∀ (s : Store) (t : Txn), t ∈ (applyRemotes ps s).txns →
      t ∈ s.txns ∨ ∃ p ∈ ps, FromPulled p t := by
  induction ps with
  | nil => intro s t ht; exact Or.inl ht
  | cons p ps ih =>
      intro s t ht
      rw [applyRemotes_cons] at ht
      rcases ih _ t ht with hmem | ⟨q, hq, hfp⟩
      · rcases upsert_mem_src hmem with hmem2 | hfp
        · exact Or.inl hmem2
        · exact Or.inr ⟨p, List.mem_cons_self _ _, hfp⟩
      · exact Or.inr ⟨q, List.mem_cons_of_mem _ hq, hfp⟩

theorem setLastSync_txns (s : Store) (n : Nat) :
    (setLastSyncTimestamp s n).txns = s.txns := rfl

theorem pull_not_reachable {env : Env} (s : Store)
    (h : env.online = false ∨ env.apiUrl = "") :
    pullRemoteTransactions env s = (s, { pulled := 0 }) := by
  unfold pullRemoteTransactions
  rw [if_pos h]

theorem pull_fail {env : Env} (s : Store) (h : env.pull = .fail) :
    pullRemoteTransactions env s = (s, { pulled := 0 }) := by
  unfold pullRemoteTransactions
  by_cases hg : env.online = false ∨ env.apiUrl = ""
  · rw [if_pos hg]
  · rw [if_neg hg, h]

theorem pull_ok {env : Env} {remotes : List RemoteTxn} (s : Store)
    (h1 : env.online = true) (h2 : env.apiUrl ≠ "")
    (h3 : env.pull = .ok remotes) :
    pullRemoteTransactions env s =
      (setLastSyncTimestamp
        (applyRemotes (remotes.filterMap (normalizeRemote env.now)) s) env.now,
       { pulled := countNew (remotes.filterMap (normalizeRemote env.now)) s }) := by
  unfold pullRemoteTransactions
  rw [if_neg (by simp [h1, h2]), h3]
  simp only [foldl_pullStep env.now remotes s 0]
  simp

theorem pull_pending (env : Env) (s : Store) :
    getPendingTransactions (pullRemoteTransactions env s).fst =
      getPendingTransactions s := by
  by_cases hg : env.online = false ∨ env.apiUrl = ""
  · rw [pull_not_reachable s hg]
  · cases hp : env.pull with
    | fail => rw [pull_fail s hp]
    | ok remotes =>
        rw [pull_ok s (by revert hg; cases env.online <;> simp) (by tauto) hp]
        show getPendingTransactions
          (setLastSyncTimestamp (applyRemotes _ s) env.now) = _
        unfold getPendingTransactions
        rw [setLastSync_txns]
        exact applyRemotes_pending _ s

theorem pull_mem_pending {env : Env} {s : Store} {t : Txn}
    (ht : t ∈ s.txns) (hp : t.syncStatus = "pending") :
    t ∈ ((pullRemoteTransactions env s).fst).txns := by
  by_cases hg : env.online = false ∨ env.apiUrl = ""
  · rw [pull_not_reachable s hg]; exact ht
  · cases hpl : env.pull with
    | fail => rw [pull_fail s hpl]; exact ht
    | ok remotes =>
        rw [pull_ok s (by revert hg; cases env.online <;> simp) (by tauto) hpl]
        show t ∈ (setLastSyncTimestamp (applyRemotes _ s) env.now).txns
        rw [setLastSync_txns]
        exact applyRemotes_mem_pending _ s t ht hp

theorem push_not_reachable {env : Env} (s : Store)
    (h : env.online = false ∨ env.apiUrl = "") :
    pushPendingTransactions env s = (s, { synced := 0, pending := 0 }) := by
  unfold pushPendingTransactions
  rw [if_pos h]

theorem push_no_pending {env : Env} (s : Store)
    (h : getPendingTransactions s = []) :
    pushPendingTransactions env s = (s, { synced := 0, pending := 0 }) := by
  unfold pushPendingTransactions
  by_cases hg : env.online = false ∨ env.apiUrl = ""
  · rw [if_pos hg]
  · rw [if_neg hg]
    simp [h]

theorem push_ok_eq {env : Env} (s : Store) (h1 : env.online = true)
    (h2 : env.apiUrl ≠ "") (h3 : env.push = .ok)
    (h4 : getPendingTransactions s ≠ []) :
    pushPendingTransactions env s =
      (markAsSynced s ((getPendingTransactions s).map Txn.localId),
       { synced := (getPendingTransactions s).length, pending := 0 }) := by
  unfold pushPendingTransactions
  rw [if_neg (by simp [h1, h2])]
  simp only [h3]
  rw [if_neg (by simpa using h4)]
  rw [List.length_map]

theorem push_fail_eq {env : Env} (s : Store) (h1 : env.online = true)
    (h2 : env.apiUrl ≠ "")
    (h3 : env.push = .httpError ∨ env.push = .netError) :
    pushPendingTransactions env s =
      (s, { synced := 0, pending := (getPendingTransactions s).length }) := by
  unfold pushPendingTransactions
  rw [if_neg (by simp [h1, h2])]
  by_cases h4 : getPendingTransactions s = []
  · simp [h4]
  · rw [if_neg (by simpa using h4)]
    rcases h3 with h3 | h3 <;> rw [h3]

theorem markAsSynced_all (s : Store) :
    getPendingTransactions
      (markAsSynced s ((getPendingTransactions s).map Txn.localId)) = [] := by
  unfold getPendingTransactions markAsSynced
  rw [List.filter_eq_nil_iff]
  intro a ha
  obtain ⟨u, hu, rfl⟩ := List.mem_map.mp ha
  by_cases hm : u.localId ∈
      ((s.txns.filter (fun t => t.syncStatus == "pending")).map Txn.localId)
  · rw [if_pos hm]
    simp
  · rw [if_neg hm]
    intro hpend
    exact hm (List.mem_map_of_mem Txn.localId (List.mem_filter.mpr ⟨hu, hpend⟩))

theorem push_ok_pending {env : Env} (s : Store) (h1 : env.online = true)
    (h2 : env.apiUrl ≠ "") (h3 : env.push = .ok) :
    getPendingTransactions (pushPendingTransactions env s).fst = [] := by
  by_cases h4 : getPendingTransactions s = []
  · rw [push_no_pending s h4]
    exact h4
  · rw [push_ok_eq s h1 h2 h3 h4]
    exact markAsSynced_all s

theorem normalizeRemote_now_indep {r : RemoteTxn} (h : r.createdAt.isSome)
    (n1 n2 : Nat) : normalizeRemote n1 r = normalizeRemote n2 r := by
  unfold normalizeRemote
  cases hrid : r.id with
  | none => rfl
  | some i =>
      obtain ⟨c, hc⟩ := Option.isSome_iff_exists.mp h
      simp [orNow, hc]

theorem normalizedRemotes_now_indep {rs : List RemoteTxn}
    (h : ∀ r ∈ rs, r.createdAt.isSome) (n1 n2 : Nat) :
    rs.filterMap (normalizeRemote n1) = rs.filterMap (normalizeRemote n2) :=
  List.filterMap_congr (fun r hr => normalizeRemote_now_indep (h r hr) n1 n2)

theorem sync_fst (env : Env) (s : Store) :
    (syncPendingTransactions env s).fst =
      (pullRemoteTransactions env (pushPendingTransactions env s).fst).fst := rfl

theorem sync_synced (env : Env) (s : Store) :
    (syncPendingTransactions env s).snd.synced =
      (pushPendingTransactions env s).snd.synced := rfl

theorem sync_pulled (env : Env) (s : Store) :
    (syncPendingTransactions env s).snd.pulled =
      (pullRemoteTransactions env (pushPendingTransactions env s).fst).snd.pulled := rfl

/-- C1 (amended): for every local store state and remote snapshot
whose records are id-unique (per the data-model invariant) and all
carry a createdAt value, running the combined sync (push then pull)
twice with no intervening local or remote change (same connectivity,
endpoint and network outcomes, possibly at a later time) returns
synced = 0 and pulled = 0 on the second run and leaves the local
transaction table unchanged. -/
theorem claim1_sync_idempotent (env1 env2 : Env) (s : Store)
    (honline : env2.online = env1.online)
    (hurl : env2.apiUrl = env1.apiUrl)
    (hpush : env2.push = env1.push)
    (hpull : env2.pull = env1.pull)
    (hcreated : ∀ r ∈ pullRecords env1, r.createdAt.isSome)
    (hnodup : (((pullRecords env1).filterMap
        (normalizeRemote env1.now)).map PulledRec.id).Nodup) :
    (syncPendingTransactions env2 (syncPendingTransactions env1 s).fst).snd.synced = 0 ∧
    (syncPendingTransactions env2 (syncPendingTransactions env1 s).fst).snd.pulled = 0 ∧
    ((syncPendingTransactions env2 (syncPendingTransactions env1 s).fst).fst).txns =
      ((syncPendingTransactions env1 s).fst).txns := by
  by_cases hg : env1.online = false ∨ env1.apiUrl = ""
  · have hg2 : env2.online = false ∨ env2.apiUrl = "" := by
      rcases hg with h | h
      · exact Or.inl (honline.trans h)
      · exact Or.inr (hurl.trans h)
    refine ⟨?_, ?_, ?_⟩
    · rw [sync_synced, push_not_reachable _ hg2]
    · rw [sync_pulled, push_not_reachable _ hg2]
      rw [pull_not_reachable _ hg2]
    · rw [sync_fst, push_not_reachable _ hg2]
      rw [pull_not_reachable _ hg2]
  · have h1on : env1.online = true := by
      cases h : env1.online with
      | false => exact absurd (Or.inl h) hg
      | true => rfl
    have h1url : env1.apiUrl ≠ "" := fun h => hg (Or.inr h)
    have h2on : env2.online = true := honline.trans h1on
    have h2url : env2.apiUrl ≠ "" := by rw [hurl]; exact h1url
    -- the second push never sends and leaves the store alone
    have hpush2 : (pushPendingTransactions env2 (syncPendingTransactions env1 s).fst).fst
          = (syncPendingTransactions env1 s).fst ∧
        (pushPendingTransactions env2 (syncPendingTransactions env1 s).fst).snd.synced = 0 := by
      cases hpo : env1.push with
      | ok =>
          have hpend1 : getPendingTransactions (syncPendingTransactions env1 s).fst = [] := by
            rw [sync_fst, pull_pending]
            exact push_ok_pending s h1on h1url hpo
          rw [push_no_pending _ hpend1]
          exact ⟨rfl, rfl⟩
      | httpError =>
          rw [push_fail_eq _ h2on h2url (Or.inl (hpush.trans hpo))]
          exact ⟨rfl, rfl⟩
      | netError =>
          rw [push_fail_eq _ h2on h2url (Or.inr (hpush.trans hpo))]
          exact ⟨rfl, rfl⟩
    refine ⟨?_, ?_, ?_⟩
    · rw [sync_synced]
      exact hpush2.2
    · rw [sync_pulled, hpush2.1]
      cases hpl : env1.pull with
      | fail =>
          rw [pull_fail _ (hpull.trans hpl)]
      | ok remotes =>
          have hrecs : pullRecords env1 = remotes := by
            unfold pullRecords
            rw [hpl]
          rw [hrecs] at hcreated hnodup
          have hps2 : remotes.filterMap (normalizeRemote env2.now) =
              remotes.filterMap (normalizeRemote env1.now) :=
            normalizedRemotes_now_indep hcreated env2.now env1.now
          have hs1txns : ((syncPendingTransactions env1 s).fst).txns =
              (applyRemotes (remotes.filterMap (normalizeRemote env1.now))
                (pushPendingTransactions env1 s).fst).txns := by
            rw [sync_fst, pull_ok _ h1on h1url hpl]
            rfl
          have habs : ∀ p ∈ remotes.filterMap (normalizeRemote env1.now),
              AbsorbedL p ((syncPendingTransactions env1 s).fst).txns := by
            rw [hs1txns]
            exact applyRemotes_absorbed_all _ _ hnodup
          rw [pull_ok _ h2on h2url (hpull.trans hpl), hps2]
          exact (applyRemotes_of_absorbed _ _ habs).2
    · rw [sync_fst, hpush2.1]
      cases hpl : env1.pull with
      | fail =>
          rw [pull_fail _ (hpull.trans hpl)]
      | ok remotes =>
          have hrecs : pullRecords env1 = remotes := by
            unfold pullRecords
            rw [hpl]
          rw [hrecs] at hcreated hnodup
          have hps2 : remotes.filterMap (normalizeRemote env2.now) =
              remotes.filterMap (normalizeRemote env1.now) :=
            normalizedRemotes_now_indep hcreated env2.now env1.now
          have hs1txns : ((syncPendingTransactions env1 s).fst).txns =
              (applyRemotes (remotes.filterMap (normalizeRemote env1.now))
                (pushPendingTransactions env1 s).fst).txns := by
            rw [sync_fst, pull_ok _ h1on h1url hpl]
            rfl
          have habs : ∀ p ∈ remotes.filterMap (normalizeRemote env1.now),
              AbsorbedL p ((syncPendingTransactions env1 s).fst).txns := by
            rw [hs1txns]
            exact applyRemotes_absorbed_all _ _ hnodup
          rw [pull_ok _ h2on h2url (hpull.trans hpl), hps2]
          rw [setLastSync_txns]
          rw [(applyRemotes_of_absorbed _ _ habs).1]

/-- A remote record with id "a" and no createdAt value. -/
def remoteNoCreated : RemoteTxn :=
  ⟨some "a", "ingreso", 5, 0, none, none, none, none, none⟩

/-- A first sync call at time 1 against a one-record remote snapshot. -/
def envFirst : Env := ⟨true, "u", .ok, .ok [remoteNoCreated], 1⟩

/-- The identical environment at the later time 2. -/
def envSecond : Env := ⟨true, "u", .ok, .ok [remoteNoCreated], 2⟩

/-- C1 counterexample: with a remote record lacking createdAt, the
second combined sync does return synced = 0 and pulled = 0, but the
pull re-overwrites the record and replaces its locally defaulted
createdAt with the new pull time, so the transaction table changes. -/
theorem claim1_counterexample :
    ¬ ((syncPendingTransactions envSecond
          (syncPendingTransactions envFirst emptyStore).fst).snd.synced = 0 ∧
       (syncPendingTransactions envSecond
          (syncPendingTransactions envFirst emptyStore).fst).snd.pulled = 0 ∧
       ((syncPendingTransactions envSecond
          (syncPendingTransactions envFirst emptyStore).fst).fst).txns =
         ((syncPendingTransactions envFirst emptyStore).fst).txns) := by
  decide

/-- A remote record with id "a" carrying a createdAt value. -/
def remoteWithCreated : RemoteTxn :=
  ⟨some "a", "ingreso", 5, 0, none, none, none, none, some 7⟩

/-- A first sync call at time 1 against a well-formed remote snapshot. -/
def envWellFirst : Env := ⟨true, "u", .ok, .ok [remoteWithCreated], 1⟩

/-- The identical environment at the later time 2. -/
def envWellSecond : Env := ⟨true, "u", .ok, .ok [remoteWithCreated], 2⟩

/-- Witness for C1: the amended idempotence theorem applied to a
concrete store and a well-formed one-record remote snapshot. -/
theorem claim1_witness :
    (syncPendingTransactions envWellSecond
        (syncPendingTransactions envWellFirst emptyStore).fst).snd.synced = 0 ∧
    (syncPendingTransactions envWellSecond
        (syncPendingTransactions envWellFirst emptyStore).fst).snd.pulled = 0 ∧
    ((syncPendingTransactions envWellSecond
        (syncPendingTransactions envWellFirst emptyStore).fst).fst).txns =
      ((syncPendingTransactions envWellFirst emptyStore).fst).txns :=
  claim1_sync_idempotent envWellFirst envWellSecond emptyStore rfl rfl rfl rfl
    (by decide) (by decide)

/-- C2: a local record with syncState = pending whose globalId matches
a record delivered by a pull keeps all of its fields (including the
amount) and its pending state: the identical record is still in the
table after the pull; the remote copy is discarded. This is stated for
every pending record, matching or not. -/
theorem claim2_pending_wins (env : Env) (s : Store) (t : Txn)
    (ht : t ∈ s.txns) (hp : t.syncStatus = "pending") :
    t ∈ ((pullRemoteTransactions env s).fst).txns :=
  pull_mem_pending ht hp

/-- The pending local record of scenario E: id "a", amount 100. -/
def pendingA : Txn :=
  ⟨1, "a", "ingreso", 100, 0, "", "general", "efectivo", "U", 0, none, "pending"⟩

/-- A store holding only the pending record with id "a". -/
def storeScenE : Store := ⟨[pendingA], 2, none⟩

/-- The remote echo of scenario E: id "a", amount 200. -/
def remoteScenE : RemoteTxn := ⟨some "a", "ingreso", 200, 0, none, none, none, none, some 9⟩

/-- An online environment delivering the scenario E remote record. -/
def envScenE : Env := ⟨true, "u", .ok, .ok [remoteScenE], 5⟩

/-- Witness for C2, scenario E: the pending amount-100 record survives
a pull delivering an amount-200 remote copy of the same id. -/
theorem claim2_witness :
    pendingA ∈ ((pullRemoteTransactions envScenE storeScenE).fst).txns :=
  claim2_pending_wins envScenE storeScenE pendingA (by decide) (by decide)

/-- C3: when online with an endpoint configured, a failed push (thrown
network error or non-success status) changes no syncState: the store
is returned untouched and the result is sent = 0 with stillPending
equal to the number of pending records. -/
theorem claim3_push_failure_atomic (env : Env) (s : Store)
    (h1 : env.online = true) (h2 : env.apiUrl ≠ "")
    (h3 : env.push = .httpError ∨ env.push = .netError) :
    pushPendingTransactions env s =
      (s, { synced := 0, pending := (getPendingTransactions s).length }) :=
  push_fail_eq s h1 h2 h3

/-- An online environment whose push request gets a non-success
status. -/
def envHttpFail : Env := ⟨true, "u", .httpError, .fail, 0⟩

/-- Witness for C3, scenario C: one pending record, push fails, the
store is unchanged and the result reports one record still pending. -/
theorem claim3_witness :
    pushPendingTransactions envHttpFail storeScenE =
      (storeScenE, { synced := 0, pending := 1 }) := by
  rw [claim3_push_failure_atomic envHttpFail storeScenE rfl (by decide) (Or.inl rfl)]
  decide

/-- C4: when online with an endpoint configured and a non-empty pending
set, a push acknowledged by the remote marks the whole batch: the
result is sent = batch size with stillPending = 0, listPending is empty
afterwards, and every record whose localId was in the batch reads
syncStatus = "synced". -/
theorem claim4_push_success (env : Env) (s : Store)
    (h1 : env.online = true) (h2 : env.apiUrl ≠ "") (h3 : env.push = .ok)
    (h4 : getPendingTransactions s ≠ []) :
    (pushPendingTransactions env s).snd.synced = (getPendingTransactions s).length ∧
    (pushPendingTransactions env s).snd.pending = 0 ∧
    getPendingTransactions (pushPendingTransactions env s).fst = [] ∧
    ∀ t ∈ ((pushPendingTransactions env s).fst).txns,
      t.localId ∈ (getPendingTransactions s).map Txn.localId →
        t.syncStatus = "synced" := by
  refine ⟨?_, ?_, push_ok_pending s h1 h2 h3, ?_⟩
  · rw [push_ok_eq s h1 h2 h3 h4]
  · rw [push_ok_eq s h1 h2 h3 h4]
  · intro t ht hmem
    rw [push_ok_eq s h1 h2 h3 h4] at ht
    unfold markAsSynced at ht
    obtain ⟨u, hu, rfl⟩ := List.mem_map.mp ht
    by_cases hm : u.localId ∈ (getPendingTransactions s).map Txn.localId
    · rw [if_pos hm]
    · rw [if_neg hm] at hmem ⊢
      exact absurd hmem hm

/-- An online environment whose push request is acknowledged. -/
def envPushOk : Env := ⟨true, "u", .ok, .fail, 0⟩

/-- Witness for C4, scenario B: one pending record, push succeeds, the
result reports one sent and none still pending and the pending list is
empty afterwards. -/
theorem claim4_witness :
    (pushPendingTransactions envPushOk storeScenE).snd.synced =
      (getPendingTransactions storeScenE).length ∧
    (pushPendingTransactions envPushOk storeScenE).snd.pending = 0 ∧
    getPendingTransactions (pushPendingTransactions envPushOk storeScenE).fst = [] ∧
    ∀ t ∈ ((pushPendingTransactions envPushOk storeScenE).fst).txns,
      t.localId ∈ (getPendingTransactions storeScenE).map Txn.localId →
        t.syncStatus = "synced" :=
  claim4_push_success envPushOk storeScenE rfl (by decide) rfl (by decide)

/-- A history step against the local store: a local add (form
submission) or a pull against some environment. -/
inductive DbOp where
  | add (now : Nat) (t : NewTxn)
  | pull (env : Env)
deriving Repr, DecidableEq

/-- Runs one history step. -/
def applyOp (s : Store) : DbOp → Store
  | .add now t => addTransaction s now t
  | .pull env => (pullRemoteTransactions env s).fst

/-- Runs a history of steps from left to right. -/
def applyOps (s : Store) : List DbOp → Store
  | [] => s
  | op :: ops => applyOps (applyOp s op) ops

/-- The globalIds currently present in the table. -/
def storeIds (s : Store) : List String := s.txns.map Txn.id

/-- Each globalId identifies at most one local record. -/
def NoDupIds (s : Store) : Prop := (storeIds s).Nodup

instance instDecNoDupIds (s : Store) : Decidable (NoDupIds s) :=
  inferInstanceAs (Decidable (storeIds s).Nodup)

/-- Checks that every add of the history supplies a globalId not
present in the store at the moment of that add. -/
def freshAdds (s : Store) : List DbOp → Bool
  | [] => true
  | .add now t :: ops =>
      decide (t.id ∉ storeIds s) && freshAdds (addTransaction s now t) ops
  | .pull env :: ops => freshAdds ((pullRemoteTransactions env s).fst) ops

theorem add_nodup {s : Store} {now : Nat} {t : NewTxn}
    (h : NoDupIds s) (hf : t.id ∉ storeIds s) :
    NoDupIds (addTransaction s now t) := by
  have hids : storeIds (addTransaction s now t) = storeIds s ++ [t.id] := by
    unfold storeIds addTransaction
    rw [List.map_append]
    rfl
  unfold NoDupIds
  rw [hids, List.nodup_append]
  refine ⟨h, by simp, ?_⟩
  intro x hx hx2
  have hxe : x = t.id := by simpa using hx2
  exact hf (hxe ▸ hx)

theorem pull_nodup {env : Env} {s : Store} (h : NoDupIds s) :
    NoDupIds ((pullRemoteTransactions env s).fst) := by
  by_cases hg : env.online = false ∨ env.apiUrl = ""
  · rw [pull_not_reachable s hg]
    exact h
  · cases hpl : env.pull with
    | fail =>
        rw [pull_fail s hpl]
        exact h
    | ok remotes =>
        have h1on : env.online = true := by
          cases hb : env.online with
          | false => exact absurd (Or.inl hb) hg
          | true => rfl
        rw [pull_ok s h1on (fun hh => hg (Or.inr hh)) hpl]
        exact applyRemotes_nodup _ s h

/-- C5 (amended): starting from a store whose globalIds are unique,
after every sequence of add and pull operations in which each add
supplies a globalId not already present at the time of the add, each
globalId still identifies at most one local record; in particular
pulls alone, however often the same remote record is pulled, never
create duplicates. -/
theorem claim5_no_duplication (s : Store) (ops : List DbOp)
    (h1 : NoDupIds s) (h2 : freshAdds s ops = true) :
    NoDupIds (applyOps s ops) := by
  induction ops generalizing s with
  | nil => exact h1
  | cons op ops ih =>
      cases op with
      | add now t =>
          rw [freshAdds, Bool.and_eq_true] at h2
          obtain ⟨ha, hrest⟩ := h2
          have hf : t.id ∉ storeIds s := of_decide_eq_true ha
          exact ih _ (add_nodup h1 hf) hrest
      | pull env =>
          rw [freshAdds] at h2
          exact ih _ (pull_nodup h1) h2

/-- A fresh transaction the form could submit twice with a colliding
globalId. -/
def ntDup : NewTxn := ⟨"a", "ingreso", 1, 0, "", "general", "efectivo", "U", none⟩

/-- C5 counterexample: `addTransaction` never deduplicates, so a
sequence of two adds reusing globalId "a" leaves two local records
with the same globalId. -/
theorem claim5_counterexample :
    ¬ NoDupIds (applyOps emptyStore [DbOp.add 0 ntDup, DbOp.add 0 ntDup]) := by
  decide

/-- Witness for C5: one fresh add followed by two pulls of the same
remote record keeps globalIds unique. -/
theorem claim5_witness :
    NoDupIds (applyOps emptyStore
      [DbOp.add 0 ntDup, DbOp.pull envScenE, DbOp.pull envScenE]) :=
  claim5_no_duplication emptyStore
    [DbOp.add 0 ntDup, DbOp.pull envScenE, DbOp.pull envScenE]
    (by decide) (by decide)

/-- C6 (amended): when a push request is made, its body is exactly the
pending set projected onto the nine wire fields, except that an empty
`categoria` is defaulted to "general" on the wire; the wire type has no
localId, syncStatus or photo field, so those are never transmitted. -/
theorem claim6_wire_projection (env : Env) (s : Store)
    (h1 : env.online = true) (h2 : env.apiUrl ≠ "")
    (h3 : getPendingTransactions s ≠ []) :
    pushRequestBody env s = some ((getPendingTransactions s).map wireOf) ∧
    ∀ t ∈ getPendingTransactions s,
      wireOf t = (if t.categoria = ""
        then { specProjection t with categoria := "general" }
        else specProjection t) := by
  constructor
  · unfold pushRequestBody
    rw [if_neg (by simp [h1, h2])]
    rw [if_neg (by simpa using h3)]
  · intro t _
    by_cases hc : t.categoria = ""
    · simp [wireOf, specProjection, hc]
    · simp [wireOf, specProjection, hc]

/-- A pending record whose `categoria` is the empty string. -/
def pendingNoCat : Txn :=
  ⟨1, "a", "gasto", 3, 0, "", "", "efectivo", "U", 0, none, "pending"⟩

/-- A store holding only the empty-category pending record. -/
def storeNoCat : Store := ⟨[pendingNoCat], 2, none⟩

/-- C6 counterexample: for a pending record with empty `categoria`, the
push body is not the verbatim projection of the record onto the nine
wire fields: the code sends "general" in its place. -/
theorem claim6_counterexample :
    pushRequestBody envPushOk storeNoCat ≠
      some ((getPendingTransactions storeNoCat).map specProjection) := by
  decide

/-- Witness for C6: the request body of a concrete reachable push is
the defaulting projection of the pending set. -/
theorem claim6_witness :
    pushRequestBody envPushOk storeNoCat =
      some ((getPendingTransactions storeNoCat).map wireOf) :=
  (claim6_wire_projection envPushOk storeNoCat rfl (by decide) (by decide)).1

theorem mem_dateRange {s : Store} {a b : Nat} {t : Txn} :
    t ∈ getTransactionsByDateRange s a b ↔
      t ∈ s.txns ∧ startOfDay a ≤ t.fecha ∧ t.fecha ≤ endOfDay b := by
  unfold getTransactionsByDateRange
  rw [List.mem_filter]
  simp

/-- C7: listByDateRange returns exactly the stored transactions whose
`fecha` lies between the start of the calendar day of the range start
and the last millisecond of the calendar day of the range end, both
inclusive; the filter reads only `fecha`, never createdAt, and a
transaction dated exactly on the start day or exactly on the end day is
included. -/
theorem claim7_date_range (s : Store) (a b : Nat) (t : Txn)
    (hab : startOfDay a ≤ startOfDay b) :
    (t ∈ getTransactionsByDateRange s a b ↔
      t ∈ s.txns ∧ startOfDay a ≤ t.fecha ∧ t.fecha ≤ endOfDay b) ∧
    (t ∈ s.txns → t.fecha = startOfDay a → t ∈ getTransactionsByDateRange s a b) ∧
    (t ∈ s.txns → t.fecha = startOfDay b → t ∈ getTransactionsByDateRange s a b) := by
  have hbe : startOfDay b ≤ endOfDay b := Nat.le_add_right _ _
  refine ⟨mem_dateRange, ?_, ?_⟩
  · intro ht hf
    exact mem_dateRange.mpr ⟨ht, Nat.le_of_eq hf.symm, hf ▸ le_trans hab hbe⟩
  · intro ht hf
    exact mem_dateRange.mpr ⟨ht, hf ▸ hab, hf ▸ hbe⟩

/-- Witness for C7 at a concrete store, range and record. -/
theorem claim7_witness :
    (pendingA ∈ getTransactionsByDateRange storeScenE 0 0 ↔
      pendingA ∈ storeScenE.txns ∧ startOfDay 0 ≤ pendingA.fecha ∧
        pendingA.fecha ≤ endOfDay 0) ∧
    (pendingA ∈ storeScenE.txns → pendingA.fecha = startOfDay 0 →
      pendingA ∈ getTransactionsByDateRange storeScenE 0 0) ∧
    (pendingA ∈ storeScenE.txns → pendingA.fecha = startOfDay 0 →
      pendingA ∈ getTransactionsByDateRange storeScenE 0 0) :=
  claim7_date_range storeScenE 0 0 pendingA (by decide)

theorem foldl_summaryStep (l : List Txn) :
    ∀ a b : Int, l.foldl summaryStep (a, b) =
      (a + sumMontos (l.filter (fun t => t.tipo == "ingreso")),
       b + sumMontos (l.filter (fun t => !(t.tipo == "ingreso")))) := by
  induction l with
  | nil =>
      intro a b
      simp [sumMontos]
  | cons t l ih =>
      intro a b
      rw [List.foldl_cons]
      by_cases hc : t.tipo = "ingreso"
      · rw [show summaryStep (a, b) t = (a + t.monto, b) from by
          simp [summaryStep, hc]]
        rw [ih, List.filter_cons, List.filter_cons]
        simp [hc, sumMontos]
        omega
      · rw [show summaryStep (a, b) t = (a, b + t.monto) from by
          simp [summaryStep, hc]]
        rw [ih, List.filter_cons, List.filter_cons]
        simp [hc, sumMontos]
        omega

theorem getSummary_eq (s : Store) (a b : Nat) :
    getSummary s a b =
      { totalIngresos := sumMontos
          ((getTransactionsByDateRange s a b).filter (fun t => t.tipo == "ingreso")),
        totalGastos := sumMontos
          ((getTransactionsByDateRange s a b).filter (fun t => !(t.tipo == "ingreso"))),
        balance := sumMontos
            ((getTransactionsByDateRange s a b).filter (fun t => t.tipo == "ingreso")) -
          sumMontos
            ((getTransactionsByDateRange s a b).filter (fun t => !(t.tipo == "ingreso"))),
        transacciones := (getTransactionsByDateRange s a b).length } := by
  dsimp only [getSummary]
  rw [foldl_summaryStep]
  simp

theorem getTotalBalance_eq (s : Store) :
    getTotalBalance s =
      { ingresos := sumMontos (s.txns.filter (fun t => t.tipo == "ingreso")),
        gastos := sumMontos (s.txns.filter (fun t => !(t.tipo == "ingreso"))),
        balance := sumMontos (s.txns.filter (fun t => t.tipo == "ingreso")) -
          sumMontos (s.txns.filter (fun t => !(t.tipo == "ingreso"))) } := by
  dsimp only [getTotalBalance]
  rw [foldl_summaryStep]
  simp

/-- C9 (implicit): only records with tipo exactly "ingreso" contribute
to the income totals; every other record, whatever its tipo, has its
amount added to the expense totals, in both getSummary and
getTotalBalance. -/
theorem claim9_nonincome_is_expense (s : Store) (a b : Nat) :
    (getSummary s a b).totalIngresos = sumMontos
      ((getTransactionsByDateRange s a b).filter (fun t => t.tipo == "ingreso")) ∧
    (getSummary s a b).totalGastos = sumMontos
      ((getTransactionsByDateRange s a b).filter (fun t => !(t.tipo == "ingreso"))) ∧
    (getTotalBalance s).ingresos = sumMontos
      (s.txns.filter (fun t => t.tipo == "ingreso")) ∧
    (getTotalBalance s).gastos = sumMontos
      (s.txns.filter (fun t => !(t.tipo == "ingreso"))) := by
  rw [getSummary_eq, getTotalBalance_eq]
  exact ⟨rfl, rfl, rfl, rfl⟩

/-- The transaction of scenario A: an income of 500 dated day 0,
stored with `syncStatus = "pending"` and localId 1. -/
def scenarioTxn : Txn :=
  ⟨1, "g1", "ingreso", 500, 0, "", "general", "efectivo", "User", 0, none, "pending"⟩

/-- The scenario A store: an empty store after adding the one income. -/
def scenarioStore : Store :=
  addTransaction emptyStore 0 ⟨"g1", "ingreso", 500, 0, "", "general", "efectivo", "User", none⟩

/-- C8: over a store whose tipos are the two modelled kinds, summarize
aggregates over listByDateRange: totalIncome is the sum of income
amounts in range, totalExpense the sum of expense amounts in range,
balance their difference and count the number of records in range; and
scenario A holds: on an empty store after adding one income of 500
dated day 0, listPending returns exactly that record and
summarize(day 0, day 0) returns totals 500 / 0 / 500 with count 1. -/
theorem claim8_summary (s : Store) (a b : Nat)
    (hk : ∀ t ∈ s.txns, t.tipo = "ingreso" ∨ t.tipo = "gasto") :
    getSummary s a b =
      { totalIngresos := sumMontos
          ((getTransactionsByDateRange s a b).filter (fun t => t.tipo == "ingreso")),
        totalGastos := sumMontos
          ((getTransactionsByDateRange s a b).filter (fun t => t.tipo == "gasto")),
        balance := sumMontos
            ((getTransactionsByDateRange s a b).filter (fun t => t.tipo == "ingreso")) -
          sumMontos
            ((getTransactionsByDateRange s a b).filter (fun t => t.tipo == "gasto")),
        transacciones := (getTransactionsByDateRange s a b).length } ∧
    getPendingTransactions scenarioStore = [scenarioTxn] ∧
    getSummary scenarioStore 0 0 =
      { totalIngresos := 500, totalGastos := 0, balance := 500, transacciones := 1 } := by
  refine ⟨?_, by decide, by decide⟩
  have hfil : (getTransactionsByDateRange s a b).filter (fun t => !(t.tipo == "ingreso")) =
      (getTransactionsByDateRange s a b).filter (fun t => t.tipo == "gasto") := by
    apply List.filter_congr
    intro t ht
    rcases hk t (mem_dateRange.mp ht).1 with h | h <;> simp [h]
  rw [getSummary_eq, hfil]

/-- Witness for C8: the aggregate characterization applied to the
scenario A store. -/
theorem claim8_witness :
    getSummary scenarioStore 0 0 =
      { totalIngresos := sumMontos
          ((getTransactionsByDateRange scenarioStore 0 0).filter
            (fun t => t.tipo == "ingreso")),
        totalGastos := sumMontos
          ((getTransactionsByDateRange scenarioStore 0 0).filter
            (fun t => t.tipo == "gasto")),
        balance := sumMontos
            ((getTransactionsByDateRange scenarioStore 0 0).filter
              (fun t => t.tipo == "ingreso")) -
          sumMontos
            ((getTransactionsByDateRange scenarioStore 0 0).filter
              (fun t => t.tipo == "gasto")),
        transacciones := (getTransactionsByDateRange scenarioStore 0 0).length } :=
  (claim8_summary scenarioStore 0 0 (by decide)).1

/-- C10 (implicit): every record a reachable pull leaves in the table
either was already stored, or stems from a delivered remote record
with a non-empty id (falsy ids are skipped) whose fields were
normalized before the upsert: the amount is the numerically coerced
wire amount, a missing description becomes "", a missing categoria
becomes "general", a missing metodoPago becomes "efectivo", a missing
usuario becomes "", a missing createdAt becomes the pull time, and the
record is stored synced. -/
theorem claim10_pull_normalization (env : Env) (s : Store)
    (remotes : List RemoteTxn)
    (h1 : env.online = true) (h2 : env.apiUrl ≠ "")
    (h3 : env.pull = .ok remotes) (t : Txn)
    (ht : t ∈ ((pullRemoteTransactions env s).fst).txns) :
    t ∈ s.txns ∨
      ∃ r ∈ remotes, ∃ i, r.id = some i ∧ i ≠ "" ∧ t.id = i ∧
        t.tipo = r.tipo ∧ t.monto = r.monto ∧ t.fecha = r.fecha ∧
        t.descripcion = jsOr r.descripcion "" ∧
        t.categoria = jsOr r.categoria "general" ∧
        t.metodoPago = jsOr r.metodoPago "efectivo" ∧
        t.usuario = jsOr r.usuario "" ∧
        t.createdAt = orNow r.createdAt env.now ∧
        t.syncStatus = "synced" := by
  rw [pull_ok s h1 h2 h3] at ht
  have ht2 : t ∈ (applyRemotes
      (remotes.filterMap (normalizeRemote env.now)) s).txns := ht
  rcases applyRemotes_mem_src _ s t ht2 with hmem | ⟨p, hp, hfp⟩
  · exact Or.inl hmem
  · right
    obtain ⟨r, hr, hnr⟩ := List.mem_filterMap.mp hp
    obtain ⟨hid, htipo, hmonto, hfecha, hdesc, hcat, hmet, husr, hca, hst⟩ := hfp
    unfold normalizeRemote at hnr
    cases hrid : r.id with
    | none =>
        rw [hrid] at hnr
        dsimp only at hnr
        exact absurd hnr (by simp)
    | some i =>
        rw [hrid] at hnr
        dsimp only at hnr
        by_cases hi : i = ""
        · rw [if_pos hi] at hnr
          exact absurd hnr (by simp)
        · rw [if_neg hi] at hnr
          have hp2 : p = ⟨i, r.tipo, r.monto, r.fecha, jsOr r.descripcion "",
              jsOr r.categoria "general", jsOr r.metodoPago "efectivo",
              jsOr r.usuario "", orNow r.createdAt env.now⟩ :=
            (Option.some.inj hnr).symm
          subst hp2
          exact ⟨r, hr, i, hrid, hi, hid, htipo, hmonto, hfecha, hdesc,
            hcat, hmet, husr, hca, hst⟩

/-- A remote record with only id, tipo, monto and fecha populated. -/
def remoteSparse : RemoteTxn := ⟨some "b", "gasto", 7, 0, none, none, none, none, none⟩

/-- A reachable environment delivering the sparse remote record at
time 42. -/
def envSparse : Env := ⟨true, "u", .ok, .ok [remoteSparse], 42⟩

/-- The local record the sparse pull inserts: defaults filled in,
createdAt stamped with the pull time, stored synced. -/
def pulledSparse : Txn :=
  ⟨1, "b", "gasto", 7, 0, "", "general", "efectivo", "", 42, none, "synced"⟩

/-- Witness for C10: the inserted record of a concrete sparse pull is
accounted for by the normalization characterization. -/
theorem claim10_witness :
    pulledSparse ∈ emptyStore.txns ∨
      ∃ r ∈ [remoteSparse], ∃ i, r.id = some i ∧ i ≠ "" ∧ pulledSparse.id = i ∧
        pulledSparse.tipo = r.tipo ∧ pulledSparse.monto = r.monto ∧
        pulledSparse.fecha = r.fecha ∧
        pulledSparse.descripcion = jsOr r.descripcion "" ∧
        pulledSparse.categoria = jsOr r.categoria "general" ∧
        pulledSparse.metodoPago = jsOr r.metodoPago "efectivo" ∧
        pulledSparse.usuario = jsOr r.usuario "" ∧
        pulledSparse.createdAt = orNow r.createdAt envSparse.now ∧
        pulledSparse.syncStatus = "synced" :=
  claim10_pull_normalization envSparse emptyStore [remoteSparse] rfl (by decide)
    rfl pulledSparse (by decide)

end RanchoFinanzas
